import Mathlib

/-!
Verification of the Mobile Plan Recommender (src/mobile_plan_recommender.py).

The Python source is shallowly embedded: JSON values become an inductive
type, Python float becomes ℚ, Python int becomes ℤ, fallible coercions
return Option (a Python exception is none), and the SQLite usage store
becomes an explicit record list with a monotone insertion clock.
-/

/-- JSON values as produced by json.load: strings, integers, reals
(modelled as rationals), booleans, null, arrays and objects. An object
models the parsed Python dict, so its key list has no duplicates. -/
inductive JValue where
  | jstr (s : String)
  | jint (n : ℤ)
  | jfloat (q : ℚ)
  | jbool (b : Bool)
  | jnull
  | jarr (elems : List JValue)
  | jobj (fields : List (String × JValue))

/-- Python max(a, b) on integers, written as a conditional so that
concrete instances evaluate by kernel reduction. -/
def pyMaxZ (a b : ℤ) : ℤ := if a ≤ b then b else a

/-- Python max(a, b) on reals (rationals here), as a conditional. -/
def pyMaxQ (a b : ℚ) : ℚ := if a ≤ b then b else a

/-- SQL MIN aggregation step on integers, as a conditional. -/
def pyMinZ (a b : ℤ) : ℤ := if a ≤ b then a else b

/-- SQL MIN aggregation step on rationals, as a conditional. -/
def pyMinQ (a b : ℚ) : ℚ := if a ≤ b then a else b

/-- Whitespace characters removed by Python str.strip (the common ones). -/
def isPySpace (c : Char) : Bool :=
  c == ' ' || c == '\t' || c == '\n' || c == '\r'

/-- Python str.strip: remove leading and trailing whitespace. -/
def pyStrip (s : String) : String :=
  String.mk (((s.toList.dropWhile isPySpace).reverse.dropWhile isPySpace).reverse)

/-- Numeric value of a list of decimal digit characters (0 for the empty list). -/
def natVal (l : List Char) : ℕ :=
  l.foldl (fun a c => a * 10 + (c.toNat - 48)) 0

/-- Value of a nonempty all-digit character list; none otherwise. -/
def digitsVal (l : List Char) : Option ℕ :=
  if l ≠ [] ∧ l.all Char.isDigit then some (natVal l) else none

/-- Python int(s) on a string: surrounding whitespace allowed, optional
sign, then decimal digits (modelled for plain decimal literals). -/
def parseIntString (s : String) : Option ℤ :=
  match (pyStrip s).toList with
  | '+' :: rest => (digitsVal rest).map Int.ofNat
  | '-' :: rest => (digitsVal rest).map (fun n => -(n : ℤ))
  | l => (digitsVal l).map Int.ofNat

/-- Unsigned part of Python float(s) parsing: digits with an optional
decimal point, at least one digit overall (modelled for plain decimal
literals). -/
def parseUnsignedFloat (l : List Char) : Option ℚ :=
  let ip := l.takeWhile (fun c => c != '.')
  let fp := l.dropWhile (fun c => c != '.')
  match fp with
  | [] => (digitsVal ip).map (fun n => (n : ℚ))
  | _ :: frac =>
    if ip.all Char.isDigit ∧ frac.all Char.isDigit ∧ (ip ≠ [] ∨ frac ≠ []) then
      some ((natVal ip : ℚ) + (natVal frac : ℚ) / ((10 ^ frac.length : ℕ) : ℚ))
    else none

/-- Python float(s) on a string: surrounding whitespace allowed, optional
sign, then an unsigned decimal literal. -/
def parseFloatString (s : String) : Option ℚ :=
  match (pyStrip s).toList with
  | '+' :: rest => parseUnsignedFloat rest
  | '-' :: rest => (parseUnsignedFloat rest).map Neg.neg
  | l => parseUnsignedFloat l

/-- Python int(x) on a float: truncation toward zero. -/
def pyTrunc (q : ℚ) : ℤ :=
  if q < 0 then -((-q).floor) else q.floor

/-- Python str(x) for JSON values. String, int, bool and null renderings
are exact; float, array and object renderings are abstracted (no claim
depends on the rendered text of non-string values). -/
def pyStr : JValue → String
  | .jstr s => s
  | .jint n => toString n
  | .jfloat q => "<float " ++ toString q.num ++ "/" ++ toString q.den ++ ">"
  | .jbool true => "True"
  | .jbool false => "False"
  | .jnull => "None"
  | .jarr _ => "<list>"
  | .jobj _ => "<dict>"

/-- Python int(x): ints pass through, floats truncate toward zero,
booleans become 0 or 1, strings are parsed as decimal integers; None,
lists and dicts raise TypeError (none). -/
def pyInt : JValue → Option ℤ
  | .jint n => some n
  | .jfloat q => some (pyTrunc q)
  | .jbool b => some (if b then 1 else 0)
  | .jstr s => parseIntString s
  | _ => none

/-- Python float(x): ints and floats pass through, booleans become 0 or 1,
strings are parsed as decimal literals; None, lists and dicts raise
TypeError (none). -/
def pyFloat : JValue → Option ℚ
  | .jint n => some (n : ℚ)
  | .jfloat q => some q
  | .jbool b => some (if b then 1 else 0)
  | .jstr s => parseFloatString s
  | _ => none

/-- Python bool(x): truthiness; total, never raises. -/
def pyBool : JValue → Bool
  | .jstr s => s != ""
  | .jint n => n != 0
  | .jfloat q => q != 0
  | .jbool b => b
  | .jnull => false
  | .jarr l => !l.isEmpty
  | .jobj f => !f.isEmpty

/-- Python item[key] with a string key: dict lookup (KeyError when the key
is absent); subscripting a non-dict JSON value with a string key raises
TypeError. Both exceptions are none. -/
def pyGetItem : JValue → String → Option JValue
  | .jobj fields, k => (fields.find? (fun kv => kv.1 == k)).map (·.2)
  | _, _ => none

/-- Validated plan, as built by load_plans (lines 81-91 of the source);
field names follow the Python dict keys. -/
structure Plan where
  provider : String
  plan_name : String
  base_cost : ℚ
  included_minutes : ℤ
  included_data_gb : ℚ
  cost_per_minute : ℚ
  cost_per_gb : ℚ
  roaming_included : Bool

/-- Direct translation of cost_for_usage (source lines 99-102). -/
def cost_for_usage (plan : Plan) (minutes : ℤ) (data_gb : ℚ) : ℚ :=
  let extra_minutes : ℤ := pyMaxZ 0 (minutes - plan.included_minutes)
  let extra_data_gb : ℚ := pyMaxQ 0 (data_gb - plan.included_data_gb)
  plan.base_cost + (extra_minutes : ℚ) * plan.cost_per_minute
    + extra_data_gb * plan.cost_per_gb

/-- Diagnostics printed by load_plans: the missing-file warning (line 70),
the parse-failure message (line 73), the per-entry skip warning carrying
the offending raw entry (line 93), and the fewer-than-five note (line 95). -/
inductive Signal where
  | missingSource
  | parseFailure
  | invalidEntry (raw : JValue)
  | fewPlansNote

/-- State of the plans.json source as seen by load_plans: the file is
absent (FileNotFoundError), present but not valid JSON (JSONDecodeError),
or parses to a JSON document. -/
inductive Source where
  | missing
  | malformed
  | doc (j : JValue)

/-- Validation and coercion of one plan entry (source lines 79-91): each
field is subscripted and coerced in the order written in the Python dict
literal; any KeyError, ValueError or TypeError makes the whole entry fail,
so a plan is never partially built. -/
def parseEntry (item : JValue) : Option (String × Plan) :=
  (pyGetItem item "plan_code").bind fun vCode =>
  (pyGetItem item "provider").bind fun vProv =>
  (pyGetItem item "plan_name").bind fun vName =>
  ((pyGetItem item "base_cost").bind pyFloat).bind fun base =>
  ((pyGetItem item "included_minutes").bind pyInt).bind fun incMin =>
  ((pyGetItem item "included_data_gb").bind pyFloat).bind fun incGb =>
  ((pyGetItem item "cost_per_minute").bind pyFloat).bind fun cpm =>
  ((pyGetItem item "cost_per_gb").bind pyFloat).bind fun cpg =>
  (pyGetItem item "roaming_included").map fun vRoam =>
    (pyStrip (pyStr vCode),
      { provider := pyStrip (pyStr vProv)
        plan_name := pyStrip (pyStr vName)
        base_cost := base
        included_minutes := incMin
        included_data_gb := incGb
        cost_per_minute := cpm
        cost_per_gb := cpg
        roaming_included := pyBool vRoam })

/-- The catalog dict, modelled as an association list in insertion order. -/
abbrev Catalog := List (String × Plan)

/-- Python dict assignment plans[code] = value: overwrite in place when the
key exists, append otherwise (insertion order is preserved). -/
def dictInsert (cat : Catalog) (code : String) (p : Plan) : Catalog :=
  match cat with
  | [] => [(code, p)]
  | kv :: rest =>
    if kv.1 = code then (code, p) :: rest else kv :: dictInsert rest code p

/-- Python dict lookup plans[code] on the catalog: the value paired with
the (unique) occurrence of the key. -/
def dictLookup : Catalog → String → Option Plan
  | [], _ => none
  | kv :: rest, code => if kv.1 = code then some kv.2 else dictLookup rest code

/-- The validation loop of load_plans (lines 76-93): fold the entries,
inserting each valid one under its code and recording a warning for each
invalid one. -/
def loadLoop : List JValue → Catalog → List Signal → Catalog × List Signal
  | [], cat, ws => (cat, ws)
  | item :: rest, cat, ws =>
    match parseEntry item with
    | some (c, p) => loadLoop rest (dictInsert cat c p) ws
    | none => loadLoop rest cat (ws ++ [Signal.invalidEntry item])

/-- Specification-side reference for the last-seen-wins rule on duplicate
plan codes: scan the entries left to right and remember the plan of the
most recent valid entry whose code is c (starting from acc). -/
def lastPlanSpec : List JValue → String → Option Plan → Option Plan
  | [], _, acc => acc
  | item :: rest, c, acc =>
    match parseEntry item with
    | some (k, p) => lastPlanSpec rest c (if k = c then some p else acc)
    | none => lastPlanSpec rest c acc

/-- Python data.get("plans", []) followed by iteration (line 77): a missing
key yields no entries, a list yields its elements, iterating a string
yields its characters and a dict its keys, and any other value raises
TypeError (none). -/
def getPlansEntries (fields : List (String × JValue)) : Option (List JValue) :=
  match ((fields.find? (fun kv => kv.1 == "plans")).map (fun kv => kv.2) : Option JValue) with
  | Option.none => some []
  | Option.some (JValue.jarr l) => some l
  | Option.some (JValue.jstr s) => some (s.toList.map (fun c => JValue.jstr (String.mk [c])))
  | Option.some (JValue.jobj f) => some (f.map (fun kv => JValue.jstr kv.1))
  | Option.some _ => none

/-- Translation of load_plans (lines 50-96). A missing or unparseable file
returns an empty catalog with one diagnostic and returns early, before the
fewer-than-five check. On a parsed document, data.get requires a dict at
the top level (otherwise AttributeError, modelled none); the entries are
then validated one by one, and the note is appended when fewer than five
distinct codes were loaded. -/
def load_plans (src : Source) : Option (Catalog × List Signal) :=
  match src with
  | .missing => some ([], [Signal.missingSource])
  | .malformed => some ([], [Signal.parseFailure])
  | .doc (.jobj fields) =>
    match getPlansEntries fields with
    | none => none
    | some entries =>
      let r := loadLoop entries [] []
      some (r.1, r.2 ++ (if r.1.length < 5 then [Signal.fewPlansNote] else []))
  | .doc _ => none

/-- Example plan used in concrete instantiations: the spec example with
base 10, zero allowances and unit overage rates. -/
def planW : Plan := ⟨"P", "N", 10, 0, 0, 1, 1, false⟩

/-- Example plan with roaming, base 17 and allowances covering the example
usage, so that it ties with planW at usage (5, 2). -/
def planW2 : Plan := ⟨"Q", "M", 17, 100, 100, 2, 2, true⟩

/-- The in-memory usage profile (current_usage dict of the source). -/
structure Usage where
  person_name : String
  minutes : ℤ
  data_gb : ℚ
  roaming_required : Bool

/-- Eligibility filter of recommend_best_plan line 205: a plan is skipped
exactly when roaming is required but not included. -/
def eligible (u : Usage) (p : Plan) : Bool :=
  !(u.roaming_required && !p.roaming_included)

/-- Monthly cost of a plan for a usage profile, as recommend_best_plan
computes it on line 207. -/
def monthlyCost (u : Usage) (p : Plan) : ℚ :=
  cost_for_usage p u.minutes u.data_gb

/-- The scan of recommend_best_plan (lines 202-210): walk the catalog in
order, skip ineligible plans, and keep the strictly cheaper of the running
best and the current plan. -/
def recommendLoop (u : Usage) : Catalog → Option (String × ℚ) → Option (String × ℚ)
  | [], best => best
  | (c, p) :: rest, best =>
    if eligible u p then
      let monthly := cost_for_usage p u.minutes u.data_gb
      match best with
      | none => recommendLoop u rest (some (c, monthly))
      | some (bc, bcost) =>
        if monthly < bcost then recommendLoop u rest (some (c, monthly))
        else recommendLoop u rest (some (bc, bcost))
    else recommendLoop u rest best

/-- Translation of recommend_best_plan (lines 195-218): the recommended
plan code with its monthly cost, or none when no plan survives the
eligibility filter (the empty catalog included). -/
def recommend_best_plan (plans : Catalog) (u : Usage) : Option (String × ℚ) :=
  recommendLoop u plans none

/-- Example usage profile without roaming: 5 minutes, 2 GB. -/
def usageW : Usage := ⟨"x", 5, 2, false⟩

/-- Example usage profile that requires roaming. -/
def usageW3 : Usage := ⟨"y", 5, 2, true⟩

/-- One row of the usage_details table (source lines 109-116):
roaming_required is stored as an integer constrained to 0 or 1, and
created_at is the insertion timestamp. -/
structure UsageRecord where
  id : ℕ
  person_name : String
  minutes : ℤ
  data_gb : ℚ
  roaming_required : ℤ
  created_at : ℕ

/-- The SQLite store: rows in insertion order plus the autoincrement
counter and a clock supplying CURRENT_TIMESTAMP values, modelled as
strictly increasing across insertions. -/
structure Store where
  rows : List UsageRecord
  nextId : ℕ
  clock : ℕ

/-- Well-formed store: every stored timestamp is in the past of the clock,
and every roaming flag satisfies the CHECK(roaming_required IN (0,1))
constraint of the table. -/
def StoreWF (s : Store) : Prop :=
  (∀ r ∈ s.rows, r.created_at < s.clock) ∧
  (∀ r ∈ s.rows, r.roaming_required = 0 ∨ r.roaming_required = 1)

instance (s : Store) : Decidable (StoreWF s) := by
  unfold StoreWF
  infer_instance

/-- Translation of save_usage (lines 121-129): INSERT a new row with the
current timestamp, storing the roaming flag as 1 or 0. -/
def save_usage (s : Store) (person_name : String) (minutes : ℤ) (data_gb : ℚ)
    (roaming : Bool) : Store :=
  { rows := s.rows ++
      [⟨s.nextId, person_name, minutes, data_gb, if roaming then 1 else 0, s.clock⟩]
    nextId := s.nextId + 1
    clock := s.clock + 1 }

/-- Scan keeping the row with the strictly greatest timestamp seen so far
(the earlier row wins a tie; timestamps are distinct in a well-formed
store). -/
def latestFrom (cur : UsageRecord) : List UsageRecord → UsageRecord
  | [] => cur
  | r :: rest =>
    if cur.created_at < r.created_at then latestFrom r rest else latestFrom cur rest

/-- ORDER BY created_at DESC LIMIT 1: the row with the greatest timestamp,
none on an empty result set. -/
def latestRow : List UsageRecord → Option UsageRecord
  | [] => none
  | r :: rest => some (latestFrom r rest)

/-- Translation of load_usage (lines 131-143): the most recent row whose
person_name is exactly equal to the query, returned as
(minutes, data_gb, bool(roaming_required)); none when no row matches. -/
def load_usage (s : Store) (person_name : String) : Option (ℤ × ℚ × Bool) :=
  match latestRow (s.rows.filter (fun r => r.person_name = person_name)) with
  | none => none
  | some r => some (r.minutes, r.data_gb, r.roaming_required ≠ 0)

/-- Aggregates printed by show_stats on a nonempty store. -/
structure Stats where
  count : ℕ
  avg_minutes : ℚ
  avg_data_gb : ℚ
  min_minutes : ℤ
  max_minutes : ℤ
  min_data_gb : ℚ
  max_data_gb : ℚ
  roaming_pct : ℚ

/-- Translation of show_stats (lines 145-164): when COUNT(*) is zero the
function prints the empty-store message and returns before any average or
percentage is formed (none); otherwise the aggregates are computed, with
roaming_pct = SUM(roaming_required) * 100 / max(1, COUNT(*)) as on
line 159. -/
def show_stats (s : Store) : Option Stats :=
  if s.rows.length = 0 then none
  else some
    { count := s.rows.length
      avg_minutes :=
        (((s.rows.map (fun r => r.minutes)).sum : ℤ) : ℚ) / (s.rows.length : ℚ)
      avg_data_gb := (s.rows.map (fun r => r.data_gb)).sum / (s.rows.length : ℚ)
      min_minutes := (s.rows.map (fun r => r.minutes)).foldl pyMinZ
        ((s.rows.map (fun r => r.minutes)).headD 0)
      max_minutes := (s.rows.map (fun r => r.minutes)).foldl pyMaxZ
        ((s.rows.map (fun r => r.minutes)).headD 0)
      min_data_gb := (s.rows.map (fun r => r.data_gb)).foldl pyMinQ
        ((s.rows.map (fun r => r.data_gb)).headD 0)
      max_data_gb := (s.rows.map (fun r => r.data_gb)).foldl pyMaxQ
        ((s.rows.map (fun r => r.data_gb)).headD 0)
      roaming_pct :=
        ((((s.rows.map (fun r => r.roaming_required)).sum : ℤ) : ℚ) * 100)
          / (pyMaxQ 1 (s.rows.length : ℚ)) }

/-- Builder for a well-formed plan entry with integer-valued numeric
fields, used by the concrete test sources below. -/
def mkPlanEntry (code provider pname : String) (base incMin incGb cpm cpg : ℤ)
    (roam : Bool) : JValue :=
  .jobj [("plan_code", .jstr code), ("provider", .jstr provider),
    ("plan_name", .jstr pname), ("base_cost", .jint base),
    ("included_minutes", .jint incMin), ("included_data_gb", .jint incGb),
    ("cost_per_minute", .jint cpm), ("cost_per_gb", .jint cpg),
    ("roaming_included", .jbool roam)]

/-- Malformed entry: the required base_cost key is absent (KeyError). -/
def badEntryMissing : JValue :=
  .jobj [("plan_code", .jstr "X1"), ("provider", .jstr "P"),
    ("plan_name", .jstr "N"), ("included_minutes", .jint 0),
    ("included_data_gb", .jint 0), ("cost_per_minute", .jint 1),
    ("cost_per_gb", .jint 1), ("roaming_included", .jbool false)]

/-- Malformed entry: base_cost is null, so float(None) raises TypeError. -/
def badEntryNull : JValue :=
  .jobj [("plan_code", .jstr "X2"), ("provider", .jstr "P"),
    ("plan_name", .jstr "N"), ("base_cost", .jnull),
    ("included_minutes", .jint 0), ("included_data_gb", .jint 0),
    ("cost_per_minute", .jint 1), ("cost_per_gb", .jint 1),
    ("roaming_included", .jbool false)]

/-- Source with 3 valid and 2 malformed entries, for the C4 scenario. -/
def srcC4 : JValue :=
  .jobj [("plans", .jarr [mkPlanEntry "A" "P" "N" 10 0 0 1 1 false,
    badEntryMissing, mkPlanEntry "B" "P" "N" 20 0 0 1 1 false,
    badEntryNull, mkPlanEntry "C" "P" "N" 30 0 0 1 1 true])]

/-- Catalog expected from srcC4. -/
def catC4 : Catalog :=
  [("A", ⟨"P", "N", 10, 0, 0, 1, 1, false⟩),
   ("B", ⟨"P", "N", 20, 0, 0, 1, 1, false⟩),
   ("C", ⟨"P", "N", 30, 0, 0, 1, 1, true⟩)]

/-- Entry whose plan_code is whitespace only, trimming to the empty
string, with all other fields valid. -/
def entC8 : JValue := mkPlanEntry "   " "P" "N" 10 0 0 1 1 false

/-- Source containing only the whitespace-coded entry. -/
def srcC8 : JValue := .jobj [("plans", .jarr [entC8])]

/-- Source with two valid entries sharing plan_code A (bases 1 and 2). -/
def srcC9 : JValue :=
  .jobj [("plans", .jarr [mkPlanEntry "A" "P" "N" 1 0 0 1 1 false,
    mkPlanEntry "A" "Q" "M" 2 0 0 1 1 true])]

/-- Entry whose roaming_included is the non-empty string "false"; all
other fields valid. -/
def entC10 : JValue :=
  .jobj [("plan_code", .jstr "A"), ("provider", .jstr "P"),
    ("plan_name", .jstr "N"), ("base_cost", .jint 10),
    ("included_minutes", .jint 0), ("included_data_gb", .jint 0),
    ("cost_per_minute", .jint 1), ("cost_per_gb", .jint 1),
    ("roaming_included", .jstr "false")]

/-- Empty store fixture. -/
def store0 : Store := ⟨[], 1, 0⟩

/-- Two-row store fixture: one roaming row and one non-roaming row. -/
def store6 : Store :=
  ⟨[⟨1, "Ann", 100, 5, 1, 0⟩, ⟨2, "Bob", 200, 8, 0, 1⟩], 3, 2⟩

theorem pyMaxZ_eq_max (a b : ℤ) : pyMaxZ a b = max a b := by
  unfold pyMaxZ
  split
  · exact (max_eq_right (by assumption)).symm
  · exact (max_eq_left (le_of_not_le (by assumption))).symm

theorem pyMaxQ_eq_max (a b : ℚ) : pyMaxQ a b = max a b := by
  unfold pyMaxQ
  split
  · exact (max_eq_right (by assumption)).symm
  · exact (max_eq_left (le_of_not_le (by assumption))).symm

theorem recommendLoop_no_eligible (u : Usage) (plans : Catalog)
    (best : Option (String × ℚ))
    (h : ∀ cp ∈ plans, eligible u cp.2 = false) :
    recommendLoop u plans best = best := by
  induction plans generalizing best with
  | nil => rfl
  | cons hd rest ih =>
    obtain ⟨c, p⟩ := hd
    have hcp : eligible u p = false := h (c, p) (by simp)
    simp only [recommendLoop, hcp, Bool.false_eq_true, if_false]
    exact ih best (fun q hq => h q (List.mem_cons_of_mem _ hq))

/-- Full characterisation of the scan in recommend_best_plan: when it
answers some r, either the running best was already r and nothing in the
remaining catalog beats it, or r is a plan of the catalog, eligible,
strictly cheaper than the running best and than every eligible plan before
it, and no later eligible plan is cheaper. -/
theorem recommendLoop_spec (u : Usage) (plans : Catalog) :
    ∀ (best : Option (String × ℚ)) (r : String × ℚ),
      recommendLoop u plans best = some r →
      (best = some r ∧ ∀ cp ∈ plans, eligible u cp.2 = true → r.2 ≤ monthlyCost u cp.2)
      ∨ (∃ pre p post, plans = pre ++ (r.1, p) :: post ∧ eligible u p = true ∧
          r.2 = monthlyCost u p ∧
          (∀ b, best = some b → r.2 < b.2) ∧
          (∀ cp ∈ pre, eligible u cp.2 = true → r.2 < monthlyCost u cp.2) ∧
          (∀ cp ∈ post, eligible u cp.2 = true → r.2 ≤ monthlyCost u cp.2)) := by
  induction plans with
  | nil =>
    intro best r h
    left
    refine ⟨h, ?_⟩
    intro cp hcp
    simp at hcp
  | cons hd rest ih =>
    obtain ⟨c, p⟩ := hd
    intro best r h
    by_cases he : eligible u p = true
    · rcases best with _ | ⟨bc, bk⟩
      · -- best was none: the current plan becomes the running best
        simp only [recommendLoop, he, if_true] at h
        rcases ih (some (c, cost_for_usage p u.minutes u.data_gb)) r h with
          ⟨h1, h2⟩ | ⟨pre, p', post, hdec, helig, hcost, _hlt, hpre, hpost⟩
        · right
          obtain rfl : r = (c, cost_for_usage p u.minutes u.data_gb) :=
            (Option.some.injEq _ _).mp h1.symm
          exact ⟨[], p, rest, by simp, he, rfl, by simp, by simp, h2⟩
        · right
          refine ⟨(c, p) :: pre, p', post, by simp [hdec], helig, hcost, by simp, ?_, hpost⟩
          intro cp hcp helig2
          rcases List.mem_cons.mp hcp with rfl | hcp2
          · have := _hlt (c, cost_for_usage p u.minutes u.data_gb) rfl
            simpa [monthlyCost] using this
          · exact hpre cp hcp2 helig2
      · -- best was some (bc, bk)
        by_cases hlt : cost_for_usage p u.minutes u.data_gb < bk
        · simp only [recommendLoop, he, if_true, hlt] at h
          rcases ih (some (c, cost_for_usage p u.minutes u.data_gb)) r h with
            ⟨h1, h2⟩ | ⟨pre, p', post, hdec, helig, hcost, hlt2, hpre, hpost⟩
          · right
            obtain rfl : r = (c, cost_for_usage p u.minutes u.data_gb) :=
              (Option.some.injEq _ _).mp h1.symm
            refine ⟨[], p, rest, by simp, he, rfl, ?_, by simp, h2⟩
            intro b hb
            obtain rfl : b = (bc, bk) := (Option.some.injEq _ _).mp hb.symm
            exact hlt
          · right
            have hrk : r.2 < cost_for_usage p u.minutes u.data_gb :=
              hlt2 (c, cost_for_usage p u.minutes u.data_gb) rfl
            refine ⟨(c, p) :: pre, p', post, by simp [hdec], helig, hcost, ?_, ?_, hpost⟩
            · intro b hb
              obtain rfl : b = (bc, bk) := (Option.some.injEq _ _).mp hb.symm
              exact lt_trans hrk hlt
            · intro cp hcp helig2
              rcases List.mem_cons.mp hcp with rfl | hcp2
              · simpa [monthlyCost] using hrk
              · exact hpre cp hcp2 helig2
        · simp only [recommendLoop, he, if_true, hlt] at h
          rcases ih (some (bc, bk)) r h with
            ⟨h1, h2⟩ | ⟨pre, p', post, hdec, helig, hcost, hlt2, hpre, hpost⟩
          · left
            obtain rfl : r = (bc, bk) := (Option.some.injEq _ _).mp h1.symm
            refine ⟨rfl, ?_⟩
            intro cp hcp helig2
            rcases List.mem_cons.mp hcp with rfl | hcp2
            · simpa [monthlyCost] using le_of_not_lt hlt
            · exact h2 cp hcp2 helig2
          · right
            have hrk : r.2 < bk := hlt2 (bc, bk) rfl
            refine ⟨(c, p) :: pre, p', post, by simp [hdec], helig, hcost, ?_, ?_, hpost⟩
            · intro b hb
              obtain rfl : b = (bc, bk) := (Option.some.injEq _ _).mp hb.symm
              exact hrk
            · intro cp hcp helig2
              rcases List.mem_cons.mp hcp with rfl | hcp2
              · simp only [monthlyCost]
                exact lt_of_lt_of_le hrk (le_of_not_lt hlt)
              · exact hpre cp hcp2 helig2
    · -- ineligible: the plan is skipped
      have he2 : eligible u p = false := by
        cases h3 : eligible u p
        · rfl
        · exact absurd h3 he
      simp only [recommendLoop, he2, Bool.false_eq_true, if_false] at h
      rcases ih best r h with ⟨h1, h2⟩ | ⟨pre, p', post, hdec, helig, hcost, hlt2, hpre, hpost⟩
      · left
        refine ⟨h1, ?_⟩
        intro cp hcp helig2
        rcases List.mem_cons.mp hcp with rfl | hcp2
        · exact absurd helig2 (by simp [he2])
        · exact h2 cp hcp2 helig2
      · right
        refine ⟨(c, p) :: pre, p', post, by simp [hdec], helig, hcost, hlt2, ?_, hpost⟩
        intro cp hcp helig2
        rcases List.mem_cons.mp hcp with rfl | hcp2
        · exact absurd helig2 (by simp [he2])
        · exact hpre cp hcp2 helig2

/-- C2: whenever recommend_best_plan returns a result, the returned code
names an eligible plan of the catalog, the returned cost is that plan's
cost_for_usage value and is minimal among all eligible plans, and every
eligible plan occurring earlier in catalog iteration order is strictly
more expensive, so on a tie the first minimal plan wins. -/
theorem C2_recommend_minimal (plans : Catalog) (u : Usage) (c : String) (k : ℚ)
    (h : recommend_best_plan plans u = some (c, k)) :
    ∃ pre p post, plans = pre ++ (c, p) :: post ∧ eligible u p = true ∧
      k = monthlyCost u p ∧
      (∀ cp ∈ plans, eligible u cp.2 = true → k ≤ monthlyCost u cp.2) ∧
      (∀ cp ∈ pre, eligible u cp.2 = true → k < monthlyCost u cp.2) := by
  rcases recommendLoop_spec u plans none (c, k) h with
    ⟨h1, _⟩ | ⟨pre, p, post, hdec, helig, hcost, _, hpre, hpost⟩
  · cases h1
  · refine ⟨pre, p, post, hdec, helig, hcost, ?_, hpre⟩
    intro cp hcp helig2
    rw [hdec] at hcp
    rcases List.mem_append.mp hcp with hpre2 | hmid
    · exact le_of_lt (hpre cp hpre2 helig2)
    · rcases List.mem_cons.mp hmid with rfl | hpost2
      · exact le_of_eq hcost
      · exact hpost cp hpost2 helig2

/-- Witness for C2: a two-plan catalog where both plans are eligible and
tie at cost 17 for usage (5 minutes, 2 GB); the first plan wins. -/
theorem C2_recommend_minimal_witness :
    ∃ pre p post, ([("A", planW), ("B", planW2)] : Catalog) = pre ++ ("A", p) :: post ∧
      eligible usageW p = true ∧ (17 : ℚ) = monthlyCost usageW p ∧
      (∀ cp ∈ ([("A", planW), ("B", planW2)] : Catalog),
        eligible usageW cp.2 = true → (17 : ℚ) ≤ monthlyCost usageW cp.2) ∧
      (∀ cp ∈ pre, eligible usageW cp.2 = true → (17 : ℚ) < monthlyCost usageW cp.2) :=
  C2_recommend_minimal [("A", planW), ("B", planW2)] usageW "A" 17
    (by with_unfolding_all rfl)

/-- C3: recommend_best_plan answers with the distinguished non-error
no-plan value none (NONE_ELIGIBLE) on the empty catalog and on every
catalog in which no plan passes the eligibility filter; it returns rather
than raising. -/
theorem C3_none_eligible (u : Usage) (plans : Catalog)
    (h : ∀ cp ∈ plans, eligible u cp.2 = false) :
    recommend_best_plan [] u = none ∧ recommend_best_plan plans u = none := by
  exact ⟨rfl, recommendLoop_no_eligible u plans none h⟩

/-- Witness for C3: a roaming-requiring usage against a catalog whose only
plan excludes roaming. -/
theorem C3_none_eligible_witness :
    recommend_best_plan [] usageW3 = none ∧
    recommend_best_plan [("A", planW)] usageW3 = none :=
  C3_none_eligible usageW3 [("A", planW)] (by decide)

/-- C1: for every plan with non-negative numeric fields and non-negative
usage, cost_for_usage equals base_cost plus overage minutes times
cost_per_minute plus overage data times cost_per_gb; and whenever the
usage stays within both allowances the result is exactly base_cost. -/
theorem C1_cost_formula (p : Plan) (m : ℤ) (g : ℚ)
    (hb : 0 ≤ p.base_cost) (him : 0 ≤ p.included_minutes)
    (hig : 0 ≤ p.included_data_gb) (hcm : 0 ≤ p.cost_per_minute)
    (hcg : 0 ≤ p.cost_per_gb) (hm : 0 ≤ m) (hg : 0 ≤ g) :
    cost_for_usage p m g =
      p.base_cost + ((max 0 (m - p.included_minutes) : ℤ) : ℚ) * p.cost_per_minute
        + max 0 (g - p.included_data_gb) * p.cost_per_gb
    ∧ (m ≤ p.included_minutes → g ≤ p.included_data_gb →
        cost_for_usage p m g = p.base_cost) := by
  constructor
  · simp [cost_for_usage, pyMaxZ_eq_max, pyMaxQ_eq_max]
  · intro h1 h2
    have e1 : pyMaxZ 0 (m - p.included_minutes) = 0 := by
      rw [pyMaxZ_eq_max]
      exact max_eq_left (sub_nonpos.mpr h1)
    have e2 : pyMaxQ 0 (g - p.included_data_gb) = 0 := by
      rw [pyMaxQ_eq_max]
      exact max_eq_left (sub_nonpos.mpr h2)
    simp [cost_for_usage, e1, e2]

/-- Witness for C1 at the spec example plan (base 10, allowances 0, unit
rates) and usage within allowances of a second plan. -/
theorem C1_cost_formula_witness :
    cost_for_usage ⟨"TelcoX", "Saver 30", 30, 300, 10, 3/10, 8, false⟩ 100 5 =
      30 + ((max 0 ((100 : ℤ) - 300) : ℤ) : ℚ) * (3/10) + max 0 ((5 : ℚ) - 10) * 8
    ∧ ((100 : ℤ) ≤ 300 → (5 : ℚ) ≤ 10 →
        cost_for_usage ⟨"TelcoX", "Saver 30", 30, 300, 10, 3/10, 8, false⟩ 100 5 = 30) :=
  C1_cost_formula ⟨"TelcoX", "Saver 30", 30, 300, 10, 3/10, 8, false⟩ 100 5
    (by norm_num) (by norm_num) (by norm_num) (by norm_num) (by norm_num)
    (by norm_num) (by norm_num)

/-- C7: with non-negative per-unit rates, cost_for_usage is monotonically
non-decreasing in the minutes argument and in the data argument, each
taken separately. -/
theorem C7_cost_monotone (p : Plan) (m1 m2 m : ℤ) (g1 g2 g : ℚ)
    (hcm : 0 ≤ p.cost_per_minute) (hcg : 0 ≤ p.cost_per_gb)
    (h0m : 0 ≤ m1) (h0g : 0 ≤ g1) (hm : m1 ≤ m2) (hg : g1 ≤ g2) :
    cost_for_usage p m1 g ≤ cost_for_usage p m2 g ∧
    cost_for_usage p m g1 ≤ cost_for_usage p m g2 := by
  constructor
  · have h1 : (max 0 (m1 - p.included_minutes) : ℤ) ≤
        max 0 (m2 - p.included_minutes) :=
      max_le_max le_rfl (sub_le_sub_right hm _)
    have h2 : ((max 0 (m1 - p.included_minutes) : ℤ) : ℚ) ≤
        ((max 0 (m2 - p.included_minutes) : ℤ) : ℚ) := by exact_mod_cast h1
    have h3 := mul_le_mul_of_nonneg_right h2 hcm
    unfold cost_for_usage
    simp only [pyMaxZ_eq_max, pyMaxQ_eq_max]
    linarith
  · have h1 : max (0 : ℚ) (g1 - p.included_data_gb) ≤
        max 0 (g2 - p.included_data_gb) :=
      max_le_max le_rfl (sub_le_sub_right hg _)
    have h3 := mul_le_mul_of_nonneg_right h1 hcg
    unfold cost_for_usage
    simp only [pyMaxZ_eq_max, pyMaxQ_eq_max]
    linarith

/-- Witness for C7 at a concrete plan and increasing usage. -/
theorem C7_cost_monotone_witness :
    cost_for_usage ⟨"TelcoX", "Saver 30", 30, 300, 10, 3/10, 8, false⟩ 100 12 ≤
      cost_for_usage ⟨"TelcoX", "Saver 30", 30, 300, 10, 3/10, 8, false⟩ 400 12 ∧
    cost_for_usage ⟨"TelcoX", "Saver 30", 30, 300, 10, 3/10, 8, false⟩ 50 5 ≤
      cost_for_usage ⟨"TelcoX", "Saver 30", 30, 300, 10, 3/10, 8, false⟩ 50 11 :=
  C7_cost_monotone ⟨"TelcoX", "Saver 30", 30, 300, 10, 3/10, 8, false⟩ 100 400 50 5 11 12
    (by norm_num) (by norm_num) (by norm_num) (by norm_num) (by norm_num) (by norm_num)

theorem dictLookup_dictInsert (cat : Catalog) (k : String) (p : Plan) (c : String) :
    dictLookup (dictInsert cat k p) c = if k = c then some p else dictLookup cat c := by
  induction cat with
  | nil => simp [dictInsert, dictLookup]
  | cons kv rest ih =>
    obtain ⟨k0, p0⟩ := kv
    by_cases h0 : k0 = k
    · subst h0
      simp only [dictInsert, if_pos rfl]
      by_cases hc : k0 = c
      · simp [dictLookup, hc]
      · simp [dictLookup, hc]
    · simp only [dictInsert, if_neg h0]
      by_cases hc : k0 = c
      · have hk : ¬k = c := fun h => h0 (hc.trans h.symm)
        simp [dictLookup, hc, hk]
      · simp only [dictLookup, if_neg hc]
        exact ih

theorem mem_dictInsert (cat : Catalog) (k : String) (p : Plan) (kv : String × Plan)
    (h : kv ∈ dictInsert cat k p) : kv ∈ cat ∨ kv = (k, p) := by
  induction cat with
  | nil =>
    simp [dictInsert] at h
    right
    exact h
  | cons kv0 rest ih =>
    simp only [dictInsert] at h
    split at h
    · rcases List.mem_cons.mp h with rfl | h2
      · right; rfl
      · left; exact List.mem_cons_of_mem _ h2
    · rcases List.mem_cons.mp h with rfl | h2
      · left; exact List.mem_cons_self _ _
      · rcases ih h2 with h3 | h3
        · left; exact List.mem_cons_of_mem _ h3
        · right; exact h3

theorem keys_dictInsert (cat : Catalog) (k : String) (p : Plan) (c : String)
    (h : c ∈ (dictInsert cat k p).map Prod.fst) :
    c ∈ cat.map Prod.fst ∨ c = k := by
  rcases List.mem_map.mp h with ⟨kv, hkv, hc⟩
  rcases mem_dictInsert cat k p kv hkv with h2 | h2
  · left; exact hc ▸ List.mem_map_of_mem Prod.fst h2
  · right
    rw [h2] at hc
    exact hc.symm

theorem nodup_dictInsert (cat : Catalog) (k : String) (p : Plan)
    (h : (cat.map Prod.fst).Nodup) :
    ((dictInsert cat k p).map Prod.fst).Nodup := by
  induction cat with
  | nil => simp [dictInsert]
  | cons kv0 rest ih =>
    obtain ⟨k0, p0⟩ := kv0
    simp only [List.map_cons, List.nodup_cons] at h
    by_cases h0 : k0 = k
    · subst h0
      simp only [dictInsert, eq_self_iff_true, if_true, List.map_cons, List.nodup_cons]
      exact h
    · simp only [dictInsert, if_neg h0, List.map_cons, List.nodup_cons]
      refine ⟨?_, ih h.2⟩
      intro hmem
      rcases keys_dictInsert rest k p k0 hmem with h2 | h2
      · exact h.1 h2
      · exact h0 h2

theorem loadLoop_ws (entries : List JValue) :
    ∀ (cat : Catalog) (ws : List Signal),
      loadLoop entries cat ws =
        ((loadLoop entries cat []).1, ws ++ (loadLoop entries cat []).2) := by
  induction entries with
  | nil => intro cat ws; simp [loadLoop]
  | cons item rest ih =>
    intro cat ws
    cases hp : parseEntry item with
    | some kv =>
      obtain ⟨k, p⟩ := kv
      simp only [loadLoop, hp]
      exact ih (dictInsert cat k p) ws
    | none =>
      simp only [loadLoop, hp]
      rw [ih cat (ws ++ [Signal.invalidEntry item]),
        ih cat ([] ++ [Signal.invalidEntry item])]
      simp

theorem loadLoop_fst (entries : List JValue) (cat : Catalog) (ws : List Signal) :
    (loadLoop entries cat ws).1 = (loadLoop entries cat []).1 := by
  rw [loadLoop_ws]

theorem loadLoop_lastPlan (entries : List JValue) :
    ∀ (cat : Catalog) (ws : List Signal) (c : String),
      dictLookup (loadLoop entries cat ws).1 c =
        lastPlanSpec entries c (dictLookup cat c) := by
  induction entries with
  | nil => intro cat ws c; simp [loadLoop, lastPlanSpec]
  | cons item rest ih =>
    intro cat ws c
    cases hp : parseEntry item with
    | some kv =>
      obtain ⟨k, p⟩ := kv
      simp only [loadLoop, lastPlanSpec, hp]
      rw [ih (dictInsert cat k p) ws c, dictLookup_dictInsert]
    | none =>
      simp only [loadLoop, lastPlanSpec, hp]
      exact ih cat _ c

theorem loadLoop_mem (entries : List JValue) :
    ∀ (cat : Catalog) (ws : List Signal) (kv : String × Plan),
      kv ∈ (loadLoop entries cat ws).1 →
      kv ∈ cat ∨ ∃ item ∈ entries, ∃ p, parseEntry item = some (kv.1, p) := by
  induction entries with
  | nil =>
    intro cat ws kv h
    left
    simpa [loadLoop] using h
  | cons item rest ih =>
    intro cat ws kv h
    cases hp : parseEntry item with
    | some kv0 =>
      obtain ⟨k, p⟩ := kv0
      simp only [loadLoop, hp] at h
      rcases ih (dictInsert cat k p) ws kv h with h2 | ⟨it, hit, p2, hp2⟩
      · rcases mem_dictInsert cat k p kv h2 with h3 | h3
        · left; exact h3
        · right
          refine ⟨item, List.mem_cons_self _ _, p, ?_⟩
          rw [h3]
          exact hp
      · right
        exact ⟨it, List.mem_cons_of_mem _ hit, p2, hp2⟩
    | none =>
      simp only [loadLoop, hp] at h
      rcases ih cat _ kv h with h2 | ⟨it, hit, p2, hp2⟩
      · left; exact h2
      · right; exact ⟨it, List.mem_cons_of_mem _ hit, p2, hp2⟩

theorem loadLoop_nodup (entries : List JValue) :
    ∀ (cat : Catalog) (ws : List Signal),
      (cat.map Prod.fst).Nodup → ((loadLoop entries cat ws).1.map Prod.fst).Nodup := by
  induction entries with
  | nil => intro cat ws h; simpa [loadLoop] using h
  | cons item rest ih =>
    intro cat ws h
    cases hp : parseEntry item with
    | some kv =>
      obtain ⟨k, p⟩ := kv
      simp only [loadLoop, hp]
      exact ih (dictInsert cat k p) ws (nodup_dictInsert cat k p h)
    | none =>
      simp only [loadLoop, hp]
      exact ih cat _ h

theorem dictLookup_mem (cat : Catalog) (c : String) (p : Plan)
    (h : dictLookup cat c = some p) : (c, p) ∈ cat := by
  induction cat with
  | nil => cases h
  | cons kv rest ih =>
    obtain ⟨k0, p0⟩ := kv
    by_cases hc : k0 = c
    · subst hc
      simp only [dictLookup, eq_self_iff_true, if_true, Option.some.injEq] at h
      subst h
      exact List.mem_cons_self _ _
    · simp only [dictLookup, if_neg hc] at h
      exact List.mem_cons_of_mem _ (ih h)

theorem filter_key_length_le_one (cat : Catalog) (c : String)
    (h : (cat.map Prod.fst).Nodup) :
    (cat.filter (fun kv => kv.1 = c)).length ≤ 1 := by
  induction cat with
  | nil => simp
  | cons kv rest ih =>
    obtain ⟨k0, p0⟩ := kv
    simp only [List.map_cons, List.nodup_cons] at h
    by_cases hc : k0 = c
    · subst hc
      have hrest : rest.filter (fun kv => kv.1 = k0) = [] := by
        rw [List.filter_eq_nil_iff]
        intro a ha hpa
        exact h.1 (by
          have : a.1 = k0 := by simpa using hpa
          rw [← this]
          exact List.mem_map_of_mem Prod.fst ha)
      simp [List.filter_cons, hrest]
    · simp only [List.filter_cons]
      have : (decide ((k0, p0).1 = c)) = false := by simp [hc]
      rw [this]
      simpa using ih h.2

theorem parseEntry_key (item : JValue) (c : String) (p : Plan)
    (h : parseEntry item = some (c, p)) :
    ∃ v, pyGetItem item "plan_code" = some v ∧ c = pyStrip (pyStr v) := by
  unfold parseEntry at h
  obtain ⟨v1, hv1, h⟩ := Option.bind_eq_some.mp h
  obtain ⟨v2, hv2, h⟩ := Option.bind_eq_some.mp h
  obtain ⟨v3, hv3, h⟩ := Option.bind_eq_some.mp h
  obtain ⟨q1, hq1, h⟩ := Option.bind_eq_some.mp h
  obtain ⟨n1, hn1, h⟩ := Option.bind_eq_some.mp h
  obtain ⟨q2, hq2, h⟩ := Option.bind_eq_some.mp h
  obtain ⟨q3, hq3, h⟩ := Option.bind_eq_some.mp h
  obtain ⟨q4, hq4, h⟩ := Option.bind_eq_some.mp h
  obtain ⟨w, hw, h⟩ := Option.map_eq_some'.mp h
  exact ⟨v1, hv1, (congrArg Prod.fst h).symm⟩

/-- Counterexample to C8 as stated: an entry whose plan_code is whitespace
only passes validation and is inserted into the catalog under the
empty-string key, so a plan whose code trims to the empty string does
appear in the catalog. -/
theorem C8_counterexample_empty_key :
    load_plans (.doc srcC8) =
      some ([("", ⟨"P", "N", 10, 0, 0, 1, 1, false⟩)], [Signal.fewPlansNote]) := by
  with_unfolding_all rfl

/-- C8 amended: every plan in the loaded catalog is keyed by the stripped
string form of the plan_code value of some source entry; the loader never
checks the stripped code for non-emptiness, so a whitespace-only plan_code
yields the empty-string key. -/
theorem C8_keys_are_stripped_codes (fields : List (String × JValue))
    (entries : List JValue) (cat : Catalog) (ws : List Signal) (kv : String × Plan)
    (hsrc : getPlansEntries fields = some entries)
    (h : load_plans (.doc (.jobj fields)) = some (cat, ws))
    (hkv : kv ∈ cat) :
    ∃ item ∈ entries, ∃ v, pyGetItem item "plan_code" = some v ∧
      kv.1 = pyStrip (pyStr v) := by
  simp only [load_plans, hsrc, Option.some.injEq] at h
  have hcat : (loadLoop entries [] []).1 = cat := congrArg Prod.fst h
  rw [← hcat] at hkv
  rcases loadLoop_mem entries [] [] kv hkv with h2 | ⟨item, hitem, p2, hp2⟩
  · simp at h2
  · obtain ⟨v, hv, hkey⟩ := parseEntry_key item kv.1 p2 hp2
    exact ⟨item, hitem, v, hv, hkey⟩

/-- Witness for the amended C8 at the whitespace-coded source. -/
theorem C8_keys_are_stripped_codes_witness :
    ∃ item ∈ [entC8], ∃ v, pyGetItem item "plan_code" = some v ∧
      (("", (⟨"P", "N", 10, 0, 0, 1, 1, false⟩ : Plan)) : String × Plan).1 =
        pyStrip (pyStr v) :=
  C8_keys_are_stripped_codes [("plans", .jarr [entC8])] [entC8]
    [("", ⟨"P", "N", 10, 0, 0, 1, 1, false⟩)] [Signal.fewPlansNote]
    ("", ⟨"P", "N", 10, 0, 0, 1, 1, false⟩)
    (by with_unfolding_all rfl) (by with_unfolding_all rfl) (by simp)

/-- C9: in the loaded catalog every code is mapped to the plan of the last
valid source entry bearing that code (last-seen wins on duplicates), and
the catalog holds at most one pair per code — exactly one whenever the
code is mapped at all. -/
theorem C9_last_seen_wins (fields : List (String × JValue)) (entries : List JValue)
    (cat : Catalog) (ws : List Signal) (c : String)
    (hsrc : getPlansEntries fields = some entries)
    (h : load_plans (.doc (.jobj fields)) = some (cat, ws)) :
    dictLookup cat c = lastPlanSpec entries c none ∧
    (cat.filter (fun kv => kv.1 = c)).length ≤ 1 ∧
    (∀ p, dictLookup cat c = some p →
      (cat.filter (fun kv => kv.1 = c)).length = 1) := by
  simp only [load_plans, hsrc, Option.some.injEq] at h
  have hcat : (loadLoop entries [] []).1 = cat := congrArg Prod.fst h
  have hnodup : (cat.map Prod.fst).Nodup := by
    rw [← hcat]
    exact loadLoop_nodup entries [] [] (by simp)
  refine ⟨?_, filter_key_length_le_one cat c hnodup, ?_⟩
  · rw [← hcat, loadLoop_lastPlan]
    rfl
  · intro p hp
    have hmem : (c, p) ∈ cat := dictLookup_mem cat c p hp
    have hmemf : (c, p) ∈ cat.filter (fun kv => kv.1 = c) :=
      List.mem_filter.mpr ⟨hmem, by simp⟩
    have h1 : 1 ≤ (cat.filter (fun kv => kv.1 = c)).length :=
      List.length_pos.mpr (List.ne_nil_of_mem hmemf)
    exact Nat.le_antisymm (filter_key_length_le_one cat c hnodup) h1

/-- Witness for C9 at a source with two valid entries sharing code A: the
catalog maps A to the second entry's plan and holds exactly one pair. -/
theorem C9_last_seen_wins_witness :
    dictLookup [("A", ⟨"Q", "M", 2, 0, 0, 1, 1, true⟩)] "A" =
      lastPlanSpec [mkPlanEntry "A" "P" "N" 1 0 0 1 1 false,
        mkPlanEntry "A" "Q" "M" 2 0 0 1 1 true] "A" none ∧
    (([("A", ⟨"Q", "M", 2, 0, 0, 1, 1, true⟩)] : Catalog).filter
      (fun kv => kv.1 = "A")).length ≤ 1 ∧
    (∀ p, dictLookup [("A", ⟨"Q", "M", 2, 0, 0, 1, 1, true⟩)] "A" = some p →
      (([("A", ⟨"Q", "M", 2, 0, 0, 1, 1, true⟩)] : Catalog).filter
        (fun kv => kv.1 = "A")).length = 1) :=
  C9_last_seen_wins [("plans", .jarr [mkPlanEntry "A" "P" "N" 1 0 0 1 1 false,
      mkPlanEntry "A" "Q" "M" 2 0 0 1 1 true])]
    [mkPlanEntry "A" "P" "N" 1 0 0 1 1 false, mkPlanEntry "A" "Q" "M" 2 0 0 1 1 true]
    [("A", ⟨"Q", "M", 2, 0, 0, 1, 1, true⟩)] [Signal.fewPlansNote] "A"
    (by with_unfolding_all rfl) (by with_unfolding_all rfl)

/-- C10: an entry whose eight other required fields are present and
coercible is never skipped because of roaming_included: any present value
of any type is accepted through bool() truthiness. -/
theorem C10_roaming_truthiness (item v1 v2 v3 : JValue) (q1 : ℚ) (n1 : ℤ)
    (q2 q3 q4 : ℚ) (w : JValue)
    (h1 : pyGetItem item "plan_code" = some v1)
    (h2 : pyGetItem item "provider" = some v2)
    (h3 : pyGetItem item "plan_name" = some v3)
    (h4 : (pyGetItem item "base_cost").bind pyFloat = some q1)
    (h5 : (pyGetItem item "included_minutes").bind pyInt = some n1)
    (h6 : (pyGetItem item "included_data_gb").bind pyFloat = some q2)
    (h7 : (pyGetItem item "cost_per_minute").bind pyFloat = some q3)
    (h8 : (pyGetItem item "cost_per_gb").bind pyFloat = some q4)
    (h9 : pyGetItem item "roaming_included" = some w) :
    parseEntry item = some (pyStrip (pyStr v1),
      { provider := pyStrip (pyStr v2)
        plan_name := pyStrip (pyStr v3)
        base_cost := q1
        included_minutes := n1
        included_data_gb := q2
        cost_per_minute := q3
        cost_per_gb := q4
        roaming_included := pyBool w }) := by
  simp [parseEntry, h1, h2, h3, h4, h5, h6, h7, h8, h9]

/-- Witness for C10: the entry whose roaming_included is the non-empty
string "false" is accepted, its roaming flag truthy-coerces to true, and
the full loader puts it in the catalog with roaming_included = true. -/
theorem C10_roaming_truthiness_witness :
    parseEntry entC10 = some (pyStrip (pyStr (JValue.jstr "A")),
      { provider := pyStrip (pyStr (JValue.jstr "P"))
        plan_name := pyStrip (pyStr (JValue.jstr "N"))
        base_cost := 10
        included_minutes := 0
        included_data_gb := 0
        cost_per_minute := 1
        cost_per_gb := 1
        roaming_included := pyBool (JValue.jstr "false") }) ∧
    pyBool (JValue.jstr "false") = true ∧
    load_plans (.doc (.jobj [("plans", .jarr [entC10])])) =
      some ([("A", ⟨"P", "N", 10, 0, 0, 1, 1, true⟩)], [Signal.fewPlansNote]) :=
  ⟨C10_roaming_truthiness entC10 (.jstr "A") (.jstr "P") (.jstr "N") 10 0 0 1 1
      (.jstr "false") (by with_unfolding_all rfl) (by with_unfolding_all rfl)
      (by with_unfolding_all rfl) (by with_unfolding_all rfl)
      (by with_unfolding_all rfl) (by with_unfolding_all rfl)
      (by with_unfolding_all rfl) (by with_unfolding_all rfl)
      (by with_unfolding_all rfl),
    by with_unfolding_all rfl, by with_unfolding_all rfl⟩

/-- C4: the loader never aborts: a missing source yields the empty catalog
plus its warning, an unparseable source yields the empty catalog plus its
warning, a malformed entry anywhere in the list is skipped with exactly
one extra per-entry warning while every other entry is still processed,
and the concrete source with 3 valid and 2 malformed entries yields a
catalog of exactly 3 plans, 2 entry warnings and the informational
fewer-than-five note. -/
theorem C4_loader_resilient :
    load_plans .missing = some ([], [Signal.missingSource]) ∧
    load_plans .malformed = some ([], [Signal.parseFailure]) ∧
    (∀ (pre post : List JValue) (bad : JValue), parseEntry bad = none →
      ∀ (cat : Catalog) (ws : List Signal),
        (loadLoop (pre ++ bad :: post) cat ws).1 = (loadLoop (pre ++ post) cat ws).1 ∧
        (loadLoop (pre ++ bad :: post) cat ws).2.length =
          (loadLoop (pre ++ post) cat ws).2.length + 1) ∧
    load_plans (.doc srcC4) =
      some (catC4, [Signal.invalidEntry badEntryMissing,
        Signal.invalidEntry badEntryNull, Signal.fewPlansNote]) ∧
    catC4.length = 3 := by
  refine ⟨rfl, rfl, ?_, by with_unfolding_all rfl, rfl⟩
  intro pre post bad hbad
  induction pre with
  | nil =>
    intro cat ws
    simp only [List.nil_append, loadLoop, hbad]
    constructor
    · rw [loadLoop_fst post cat (ws ++ [Signal.invalidEntry bad]),
        loadLoop_fst post cat ws]
    · rw [loadLoop_ws post cat (ws ++ [Signal.invalidEntry bad]),
        loadLoop_ws post cat ws]
      simp only [List.length_append, List.length_cons, List.length_nil]
      omega
  | cons item rest ih =>
    intro cat ws
    cases hp : parseEntry item with
    | some kv =>
      obtain ⟨k, p⟩ := kv
      simp only [List.cons_append, loadLoop, hp]
      exact ih (dictInsert cat k p) ws
    | none =>
      simp only [List.cons_append, loadLoop, hp]
      exact ih cat (ws ++ [Signal.invalidEntry item])

/-- Witness for C4: dropping the null-base_cost entry from between two
valid entries leaves the catalog unchanged and removes one warning. -/
theorem C4_loader_resilient_witness :
    (loadLoop ([mkPlanEntry "A" "P" "N" 10 0 0 1 1 false] ++ badEntryNull ::
        [mkPlanEntry "B" "P" "N" 20 0 0 1 1 false]) [] []).1 =
      (loadLoop ([mkPlanEntry "A" "P" "N" 10 0 0 1 1 false] ++
        [mkPlanEntry "B" "P" "N" 20 0 0 1 1 false]) [] []).1 ∧
    (loadLoop ([mkPlanEntry "A" "P" "N" 10 0 0 1 1 false] ++ badEntryNull ::
        [mkPlanEntry "B" "P" "N" 20 0 0 1 1 false]) [] []).2.length =
      (loadLoop ([mkPlanEntry "A" "P" "N" 10 0 0 1 1 false] ++
        [mkPlanEntry "B" "P" "N" 20 0 0 1 1 false]) [] []).2.length + 1 :=
  C4_loader_resilient.2.2.1 [mkPlanEntry "A" "P" "N" 10 0 0 1 1 false]
    [mkPlanEntry "B" "P" "N" 20 0 0 1 1 false] badEntryNull
    (by with_unfolding_all rfl) [] []


theorem latestFrom_spec (l : List UsageRecord) :
    ∀ cur, (latestFrom cur l = cur ∨ latestFrom cur l ∈ l) ∧
      cur.created_at ≤ (latestFrom cur l).created_at ∧
      (∀ x ∈ l, x.created_at ≤ (latestFrom cur l).created_at) := by
  induction l with
  | nil =>
    intro cur
    exact ⟨Or.inl rfl, le_rfl, fun x hx => absurd hx (List.not_mem_nil x)⟩
  | cons r rest ih =>
    intro cur
    by_cases hc : cur.created_at < r.created_at
    · have hr := ih r
      simp only [latestFrom, if_pos hc]
      refine ⟨?_, le_trans (le_of_lt hc) hr.2.1, ?_⟩
      · rcases hr.1 with h1 | h1
        · right; rw [h1]; exact List.mem_cons_self _ _
        · right; exact List.mem_cons_of_mem _ h1
      · intro x hx
        rcases List.mem_cons.mp hx with rfl | hx2
        · exact hr.2.1
        · exact hr.2.2 x hx2
    · have hr := ih cur
      simp only [latestFrom, if_neg hc]
      refine ⟨?_, hr.2.1, ?_⟩
      · rcases hr.1 with h1 | h1
        · left; exact h1
        · right; exact List.mem_cons_of_mem _ h1
      · intro x hx
        rcases List.mem_cons.mp hx with rfl | hx2
        · exact le_trans (le_of_not_lt hc) hr.2.1
        · exact hr.2.2 x hx2

theorem latestRow_spec (l : List UsageRecord) (r : UsageRecord)
    (h : latestRow l = some r) :
    r ∈ l ∧ ∀ x ∈ l, x.created_at ≤ r.created_at := by
  cases l with
  | nil => exact Option.noConfusion h
  | cons x rest =>
    obtain rfl : latestFrom x rest = r := Option.some.inj h
    have hs := latestFrom_spec rest x
    constructor
    · rcases hs.1 with h1 | h1
      · rw [h1]; exact List.mem_cons_self _ _
      · exact List.mem_cons_of_mem _ h1
    · intro y hy
      rcases List.mem_cons.mp hy with rfl | hy2
      · exact hs.2.1
      · exact hs.2.2 y hy2

theorem latestFrom_append_last (l : List UsageRecord) :
    ∀ (cur r : UsageRecord), (∀ x ∈ l, x.created_at < r.created_at) →
      cur.created_at < r.created_at → latestFrom cur (l ++ [r]) = r := by
  induction l with
  | nil =>
    intro cur r _ hcur
    simp only [List.nil_append, latestFrom, if_pos hcur]
  | cons x rest ih =>
    intro cur r hall hcur
    have hx := hall x (List.mem_cons_self _ _)
    have hrest : ∀ y ∈ rest, y.created_at < r.created_at :=
      fun y hy => hall y (List.mem_cons_of_mem _ hy)
    by_cases hc : cur.created_at < x.created_at
    · simp only [List.cons_append, latestFrom, if_pos hc]
      exact ih x r hrest hx
    · simp only [List.cons_append, latestFrom, if_neg hc]
      exact ih cur r hrest hcur

theorem latestRow_append_last (l : List UsageRecord) (r : UsageRecord)
    (h : ∀ x ∈ l, x.created_at < r.created_at) :
    latestRow (l ++ [r]) = some r := by
  cases l with
  | nil => rfl
  | cons x rest =>
    simp only [List.cons_append, latestRow]
    rw [latestFrom_append_last rest x r
      (fun y hy => h y (List.mem_cons_of_mem _ hy)) (h x (List.mem_cons_self _ _))]

/-- C5: appending a profile and then querying latest with the same name
returns exactly the profile just appended (identical minutes, data_gb and
roaming flag); latest on a name with no matching records returns none
(NONE_FOUND); and any successful latest result comes from an exact,
case-sensitive name match holding the greatest creation timestamp among
all matching rows. -/
theorem C5_latest_roundtrip (s : Store) (name : String) (m : ℤ) (g : ℚ) (b : Bool)
    (hwf : StoreWF s) :
    load_usage (save_usage s name m g b) name = some (m, g, b) ∧
    (∀ other, (∀ r ∈ s.rows, r.person_name ≠ other) → load_usage s other = none) ∧
    (∀ q out, load_usage s q = some out →
      ∃ r ∈ s.rows, r.person_name = q ∧
        (∀ r2 ∈ s.rows, r2.person_name = q → r2.created_at ≤ r.created_at) ∧
        out = (r.minutes, r.data_gb, decide (r.roaming_required ≠ 0))) := by
  refine ⟨?_, ?_, ?_⟩
  · have hrows : (save_usage s name m g b).rows = s.rows ++
        [(⟨s.nextId, name, m, g, if b then 1 else 0, s.clock⟩ : UsageRecord)] := rfl
    have hfilter : (save_usage s name m g b).rows.filter
        (fun r => r.person_name = name) =
        s.rows.filter (fun r => r.person_name = name) ++
          [(⟨s.nextId, name, m, g, if b then 1 else 0, s.clock⟩ : UsageRecord)] := by
      rw [hrows, List.filter_append]
      simp
    have hlatest : latestRow ((save_usage s name m g b).rows.filter
        (fun r => r.person_name = name)) =
        some (⟨s.nextId, name, m, g, if b then 1 else 0, s.clock⟩ : UsageRecord) := by
      rw [hfilter]
      exact latestRow_append_last _ _
        (fun x hx => hwf.1 x (List.mem_of_mem_filter hx))
    simp only [load_usage, hlatest]
    cases b <;> simp
  · intro other hother
    have hfil : s.rows.filter (fun r => r.person_name = other) = [] := by
      rw [List.filter_eq_nil_iff]
      intro a ha
      simp [hother a ha]
    simp [load_usage, hfil, latestRow]
  · intro q out h
    cases hl : latestRow (s.rows.filter (fun r => r.person_name = q)) with
    | none =>
      simp only [load_usage, hl] at h
      exact Option.noConfusion h
    | some r0 =>
      simp only [load_usage, hl, Option.some.injEq] at h
      obtain ⟨hmem, hbound⟩ := latestRow_spec _ r0 hl
      have hmem2 := List.mem_filter.mp hmem
      refine ⟨r0, hmem2.1, by simpa using hmem2.2, ?_, h.symm⟩
      intro r2 hr2 hname
      exact hbound r2 (List.mem_filter.mpr ⟨hr2, by simp [hname]⟩)

/-- Witness for C5: appending Ann's profile (5 minutes, 2 GB, roaming) to
the empty store and reading it back. -/
theorem C5_latest_roundtrip_witness :
    load_usage (save_usage store0 "Ann" 5 2 true) "Ann" = some (5, 2, true) ∧
    (∀ other, (∀ r ∈ store0.rows, r.person_name ≠ other) →
      load_usage store0 other = none) ∧
    (∀ q out, load_usage store0 q = some out →
      ∃ r ∈ store0.rows, r.person_name = q ∧
        (∀ r2 ∈ store0.rows, r2.person_name = q → r2.created_at ≤ r.created_at) ∧
        out = (r.minutes, r.data_gb, decide (r.roaming_required ≠ 0))) :=
  C5_latest_roundtrip store0 "Ann" 5 2 true (by decide)

theorem sum_roaming_count (l : List UsageRecord)
    (h : ∀ r ∈ l, r.roaming_required = 0 ∨ r.roaming_required = 1) :
    (l.map (fun r => r.roaming_required)).sum =
      ((l.filter (fun r => r.roaming_required = 1)).length : ℤ) := by
  induction l with
  | nil => simp
  | cons x rest ih =>
    have ih2 := ih (fun r hr => h r (List.mem_cons_of_mem _ hr))
    rcases h x (List.mem_cons_self _ _) with h0 | h1
    · simp only [List.map_cons, List.sum_cons, List.filter_cons]
      rw [if_neg (by simp [h0]), h0, zero_add]
      exact ih2
    · simp only [List.map_cons, List.sum_cons, List.filter_cons]
      rw [if_pos (by simp [h1]), h1, List.length_cons, ih2]
      push_cast
      ring

/-- C6: show_stats on an empty store returns the distinguished none before
any average or quotient is formed; on a nonempty store satisfying the 0/1
roaming check constraint it returns statistics whose roaming_pct equals
the number of roaming rows divided by the total record count, times 100,
computed over all rows regardless of person. -/
theorem C6_stats_empty_and_pct (s : Store) (hwf : StoreWF s) :
    (s.rows = [] → show_stats s = none) ∧
    (s.rows ≠ [] → ∃ st, show_stats s = some st ∧ st.count = s.rows.length ∧
      st.roaming_pct =
        ((s.rows.filter (fun r => r.roaming_required = 1)).length : ℚ)
          / (s.rows.length : ℚ) * 100) := by
  constructor
  · intro h
    simp [show_stats, h]
  · intro h
    have hlen : s.rows.length ≠ 0 := by simpa using h
    unfold show_stats
    rw [if_neg hlen]
    refine ⟨_, rfl, rfl, ?_⟩
    show ((((s.rows.map (fun r => r.roaming_required)).sum : ℤ) : ℚ) * 100)
        / (pyMaxQ 1 (s.rows.length : ℚ)) = _
    have h1 : pyMaxQ 1 (s.rows.length : ℚ) = (s.rows.length : ℚ) := by
      unfold pyMaxQ
      rw [if_pos]
      exact_mod_cast Nat.one_le_iff_ne_zero.mpr hlen
    rw [h1, sum_roaming_count s.rows hwf.2, div_mul_eq_mul_div]
    push_cast
    ring

/-- Witness for C6: the two-row store with one roaming row; hypotheses
discharged at the concrete store. -/
theorem C6_stats_empty_and_pct_witness :
    (store6.rows = [] → show_stats store6 = none) ∧
    (store6.rows ≠ [] → ∃ st, show_stats store6 = some st ∧
      st.count = store6.rows.length ∧
      st.roaming_pct =
        ((store6.rows.filter (fun r => r.roaming_required = 1)).length : ℚ)
          / (store6.rows.length : ℚ) * 100) :=
  C6_stats_empty_and_pct store6 (by decide)
